import Mathlib

/-!
# A verification model of react-state-sync's createSyncState

Shallow embedding of the synchronization core in src/unnamed/part_000 (the
canonical hook-enabled build, per the spec) together with the TypeScript
source src/src/createSyncState.ts.  Listener callbacks are represented by
numeric identities and their invocations by an explicit event trace; the
durable store is an association list of string keys to string values; JS
truthiness and strict equality are modelled explicitly where the source
relies on them.
-/

/-- The storage constructor option of SyncStateOptions: absent (undefined),
the literal false, or an actual Storage handle identified by a numeric
object identity. -/
inductive StorageOpt where
  | noStorage : StorageOpt
  | falseStorage : StorageOpt
  | store : Nat → StorageOpt
  deriving DecidableEq, Repr

/-- JS truthiness of the storage option: only an actual Storage object is
truthy (undefined and the literal false are falsy). -/
def StorageOpt.truthy : StorageOpt → Bool
  | .store _ => true
  | _ => false

/-- JS truthiness of the optional key string: undefined and the empty string
are falsy. -/
def keyTruthy : Option String → Bool
  | none => false
  | some s => !s.isEmpty

/-- The constructor options record (SyncStateOptions), with the optional
onInit / onUpdate callbacks abstracted to presence flags (their invocations
are recorded in the event trace). -/
structure Config (α : Type) where
  defaultValue : α
  key : Option String := none
  storage : StorageOpt := .noStorage
  serialize : α → String
  deserialize : Option String → Option α
  hasOnInit : Bool := false
  hasOnUpdate : Bool := false

/-- The contents of the durable store: an association list from keys to the
stored strings. -/
abbrev StoreMap := List (String × String)

/-- Storage.getItem: the stored string under the key, or null. -/
def getItem (m : StoreMap) (k : String) : Option String :=
  match m.find? (fun e => e.1 == k) with
  | some e => some e.2
  | none => none

/-- Storage.setItem: overwrite the entry under the key, or append a new one. -/
def setItem (m : StoreMap) (k : String) (v : String) : StoreMap :=
  if m.any (fun e => e.1 == k) then
    m.map (fun e => if e.1 == k then (k, v) else e)
  else
    m ++ [(k, v)]

/-- One observable side effect of the core: a listener invocation, a store
write, or an onInit / onUpdate callback invocation. -/
inductive Event (α : Type) where
  | notify : Nat → α → Event α
  | storeSet : String → String → Event α
  | onInitCall : α → Event α
  | onUpdateCall : α → Event α
  deriving DecidableEq, Repr

/-- The full mutable state owned by one createSyncState instance: the value
cell, the registered updaters in registration order, whether the storage
event listener is attached to the window, and the contents of the (single)
configured durable store. -/
structure World (α : Type) where
  value : α
  updaters : List Nat
  listening : Bool
  contents : StoreMap

/-- updaters.forEach((updater) => updater(newValue)) — the notification
trace, one event per registered updater, in registration order. -/
def callUpdaters (updaters : List Nat) (newValue : α) : List (Event α) :=
  updaters.map (fun i => Event.notify i newValue)

/-- if (storage && key) storage.setItem(key, serialize(newValue)) — the
effect on the store contents. -/
def persistToStorage (cfg : Config α) (contents : StoreMap) (newValue : α) :
    StoreMap :=
  match cfg.storage, cfg.key with
  | .store _, some k =>
      if k.isEmpty then contents else setItem contents k (cfg.serialize newValue)
  | _, _ => contents

/-- The store-write events the same persistToStorage call emits. -/
def persistEvents (cfg : Config α) (newValue : α) : List (Event α) :=
  match cfg.storage, cfg.key with
  | .store _, some k =>
      if k.isEmpty then [] else [Event.storeSet k (cfg.serialize newValue)]
  | _, _ => []

/-- getInitialValue of the hook-enabled build: when storage and key are
truthy, deserialize the stored entry and, if non-null, use it untouched;
otherwise (and in every other configuration) fall through to
persistToStorage(defaultValue) and return defaultValue. -/
def getInitialValue (cfg : Config α) (contents : StoreMap) : α × StoreMap :=
  match cfg.storage, cfg.key with
  | .store _, some k =>
      if k.isEmpty then
        (cfg.defaultValue, persistToStorage cfg contents cfg.defaultValue)
      else
        match cfg.deserialize (getItem contents k) with
        | some v => (v, contents)
        | none => (cfg.defaultValue, persistToStorage cfg contents cfg.defaultValue)
  | _, _ => (cfg.defaultValue, persistToStorage cfg contents cfg.defaultValue)

/-- The constructor's failure mode. -/
inductive ConfigErr where
  | invalidConfiguration : ConfigErr
  deriving DecidableEq, Repr

/-- createSyncState: throw when storage is truthy and key is not; otherwise
resolve the initial value via getInitialValue, start with no updaters and no
window listener, and invoke onInit (when present) with the resolved value. -/
def createSyncState (cfg : Config α) (contents : StoreMap) :
    Except ConfigErr (World α × List (Event α)) :=
  if cfg.storage.truthy && !(keyTruthy cfg.key) then
    .error .invalidConfiguration
  else
    let r := getInitialValue cfg contents
    .ok ({ value := r.1, updaters := [], listening := false, contents := r.2 },
      if cfg.hasOnInit then [Event.onInitCall r.1] else [])

/-- The argument of setSyncValue: a literal new value or an updater
function. -/
inductive NewValue (α : Type) where
  | lit : α → NewValue α
  | fn : (α → α) → NewValue α

/-- typeof newValue === 'function' dispatch: an updater is applied to the
current value, a literal replaces it. -/
def computeNewValue (arg : NewValue α) (old : α) : α :=
  match arg with
  | .lit x => x
  | .fn f => f old

/-- setSyncValue: compute the new value, overwrite the value cell, call all
updaters with it, then persist it to the configured store. -/
def setSyncValue (cfg : Config α) (arg : NewValue α) (w : World α) :
    World α × List (Event α) :=
  let v := computeNewValue arg w.value
  ({ w with value := v, contents := persistToStorage cfg w.contents v },
    callUpdaters w.updaters v ++ persistEvents cfg v)

/-- Modelled from the spec: the onUpdate-enabled build of setSyncValue.  The
repository type declarations (src/unnamed/part_002) and the test suite
declare an onUpdate option, but the build implementing it is not among the
source files; per the spec, onUpdate is invoked with the new value after
listener notification and persistence. -/
def setSyncValueU (cfg : Config α) (arg : NewValue α) (w : World α) :
    World α × List (Event α) :=
  let r := setSyncValue cfg arg w
  (r.1, r.2 ++ if cfg.hasOnUpdate then [Event.onUpdateCall r.1.value] else [])

/-- A StorageEvent as seen by the handler: the originating storage area (a
store identity, or null), the changed key (or null), and the new raw value
(or null). -/
structure SEvent where
  storageArea : Option Nat
  key : Option String
  newValue : Option String

/-- storageEvent.storageArea === storage — JS strict equality: only an
actual store with the same identity matches; null matches neither undefined
nor false nor a store. -/
def areaMatches : Option Nat → StorageOpt → Bool
  | some sid, .store sid2 => sid == sid2
  | _, _ => false

/-- storageEvent.key === key — JS strict equality on nullable strings:
null === undefined is false. -/
def keyMatches : Option String → Option String → Bool
  | some a, some b => a == b
  | _, _ => false

/-- storageEventListener: when the event's storage area and key both match
the configured ones, deserialize the event's new raw value; when that is
non-null overwrite the value cell and call the updaters, and otherwise do
nothing.  The store is never written here. -/
def storageEventListener (cfg : Config α) (ev : SEvent) (w : World α) :
    World α × List (Event α) :=
  if areaMatches ev.storageArea cfg.storage && keyMatches ev.key cfg.key then
    match cfg.deserialize ev.newValue with
    | some nv => ({ w with value := nv }, callUpdaters w.updaters nv)
    | none => (w, [])
  else (w, [])

/-- JS Array.prototype.indexOf: the index of the first occurrence, or -1. -/
def jsIndexOf : List Nat → Nat → Int
  | [], _ => -1
  | x :: xs, id =>
      if x == id then 0
      else
        let r := jsIndexOf xs id
        if r = -1 then -1 else r + 1

/-- JS Array.prototype.splice(start, 1): a negative start counts from the
end (clamped to 0), a start at or past the length removes nothing. -/
def jsSpliceRemoveOne (l : List Nat) (start : Int) : List Nat :=
  let s : Nat := if start < 0 then ((l.length : Int) + start).toNat else start.toNat
  l.take s ++ l.drop (s + 1)

/-- updaters.splice(updaters.indexOf(stateUpdater), 1) — the teardown's
removal of one updater from the registry. -/
def removeUpdater (l : List Nat) (id : Nat) : List Nat :=
  jsSpliceRemoveOne l (jsIndexOf l id)

/-- The effect body of useSyncValue: push the state updater; when it is the
first one and storage and key are truthy, attach the window storage event
listener. -/
def attachUpdater (cfg : Config α) (id : Nat) (w : World α) : World α :=
  let ups := w.updaters ++ [id]
  { w with
    updaters := ups,
    listening :=
      if ups.length == 1 && (cfg.storage.truthy && keyTruthy cfg.key) then true
      else w.listening }

/-- The effect cleanup of useSyncValue: splice the state updater out at its
indexOf position; when none remain and storage and key are truthy, detach
the window storage event listener. -/
def detachUpdater (cfg : Config α) (id : Nat) (w : World α) : World α :=
  let ups := removeUpdater w.updaters id
  { w with
    updaters := ups,
    listening :=
      if ups.length == 0 && (cfg.storage.truthy && keyTruthy cfg.key) then false
      else w.listening }

/-- One consumer-side lifecycle step: a hook attaching or detaching its
state updater. -/
inductive HookOp where
  | attach : Nat → HookOp
  | detach : Nat → HookOp

/-- Run a sequence of hook lifecycle steps. -/
def runHookOps (cfg : Config α) (w : World α) : List HookOp → World α
  | [] => w
  | .attach id :: ops => runHookOps cfg (attachUpdater cfg id w) ops
  | .detach id :: ops => runHookOps cfg (detachUpdater cfg id w) ops

/-- The initial read of useSyncValue without a mapper: the current raw
value. -/
def useSyncValueRead (w : World α) : α := w.value

/-- The initial read of useSyncValue with a mapper: the mapper applied to
the current raw value. -/
def useSyncValueReadM (w : World α) (mapper : α → β) : β := mapper w.value

/-!
## The default codec

A model of the default serialize / deserialize pair (JSON.stringify and
stringValue => JSON.parse(stringValue || 'null')) on the JSON fragment of
booleans, integer numerals, strings, arrays and objects.  The JS value null
is the codec's failure sentinel, so it is not a value of the fragment; a
parse that would produce it yields none, exactly as the core observes it.
Strings escape the quote and backslash characters; numerals are decimal
integers.
-/

mutual
/-- A JSON value of the modelled fragment, with arrays and objects as
mutual spine types so that all functions below are structurally
recursive. -/
inductive JVal where
  | jbool : Bool → JVal
  | jnum : Int → JVal
  | jstr : String → JVal
  | jarr : JArr → JVal
  | jobj : JFields → JVal
inductive JArr where
  | anil : JArr
  | acons : JVal → JArr → JArr
inductive JFields where
  | fnil : JFields
  | fcons : String → JVal → JFields → JFields
end

/-- The decimal digit characters. -/
def digitChar : Nat → Char
  | 0 => '0'
  | 1 => '1'
  | 2 => '2'
  | 3 => '3'
  | 4 => '4'
  | 5 => '5'
  | 6 => '6'
  | 7 => '7'
  | 8 => '8'
  | _ => '9'

/-- Decimal digits of a natural number, most significant first; the fuel
argument only bounds the recursion and any fuel above the number itself is
enough. -/
def natDigitsAux : Nat → Nat → List Char
  | 0, _ => []
  | fuel + 1, n =>
      if n < 10 then [digitChar n]
      else natDigitsAux fuel (n / 10) ++ [digitChar (n % 10)]

/-- Decimal digits of a natural number, most significant first. -/
def natDigits (n : Nat) : List Char := natDigitsAux (n + 1) n

/-- The decimal numeral of an integer, as JSON.stringify writes it. -/
def serInt (i : Int) : List Char :=
  if i < 0 then '-' :: natDigits (-i).toNat else natDigits i.toNat

/-- Escape one character of a string body: quote and backslash get a
backslash, anything else stands for itself. -/
def quoteChar (c : Char) : List Char :=
  if c = '"' || c = '\\' then ['\\', c] else [c]

/-- Escape a whole string body. -/
def escChars : List Char → List Char
  | [] => []
  | c :: cs => quoteChar c ++ escChars cs

mutual
/-- Model of JSON.stringify on the fragment, character-list valued. -/
def serJ : JVal → List Char
  | .jbool true => ['t', 'r', 'u', 'e']
  | .jbool false => ['f', 'a', 'l', 's', 'e']
  | .jnum i => serInt i
  | .jstr s => '"' :: (escChars s.data ++ ['"'])
  | .jarr l => '[' :: serElemsChars l
  | .jobj fs => '{' :: serFieldsChars fs
def serElemsChars : JArr → List Char
  | .anil => [']']
  | .acons v .anil => serJ v ++ [']']
  | .acons v vs => serJ v ++ ',' :: serElemsChars vs
def serFieldsChars : JFields → List Char
  | .fnil => ['}']
  | .fcons k v .fnil => '"' :: (escChars k.data ++ '"' :: ':' :: (serJ v ++ ['}']))
  | .fcons k v fs =>
      '"' :: (escChars k.data ++ '"' :: ':' :: (serJ v ++ ',' :: serFieldsChars fs))
end

mutual
/-- The fuel a parse of a serialized value needs: one unit per step of the
mutual descent. -/
def fuelJ : JVal → Nat
  | .jbool _ => 1
  | .jnum _ => 1
  | .jstr _ => 1
  | .jarr l => 1 + fuelA l
  | .jobj fs => 1 + fuelF fs
def fuelA : JArr → Nat
  | .anil => 1
  | .acons v vs => 1 + fuelJ v + fuelA vs
def fuelF : JFields → Nat
  | .fnil => 1
  | .fcons _ v fs => 1 + fuelJ v + fuelF fs
end

/-- Read a string body up to the closing quote, undoing the escapes; the
flag records whether the previous character was an unconsumed backslash. -/
def parseStrCharsAux : Bool → List Char → Option (List Char × List Char)
  | _, [] => none
  | true, c :: cs =>
      if c = '"' || c = '\\' then
        match parseStrCharsAux false cs with
        | some (s, r) => some (c :: s, r)
        | none => none
      else none
  | false, c :: cs =>
      if c = '"' then some ([], cs)
      else if c = '\\' then parseStrCharsAux true cs
      else
        match parseStrCharsAux false cs with
        | some (s, r) => some (c :: s, r)
        | none => none

/-- Read a string body up to the closing quote, undoing the escapes. -/
def parseStrChars (cs : List Char) : Option (List Char × List Char) :=
  parseStrCharsAux false cs

/-- The numeric value of a digit character. -/
def digitVal (c : Char) : Nat := c.toNat - 48

/-- Consume a maximal run of digits, accumulating their value. -/
def parseDigitsAux : List Char → Nat → Nat × List Char
  | [], acc => (acc, [])
  | c :: cs, acc =>
      if c.isDigit then parseDigitsAux cs (acc * 10 + digitVal c)
      else (acc, c :: cs)

/-- Does the input begin with a digit?  Serialized continuations never do,
which keeps number parsing unambiguous. -/
def startsWithDigit : List Char → Bool
  | [] => false
  | c :: _ => c.isDigit

/-- Parse an optionally signed decimal numeral. -/
def parseNum : List Char → Option (Int × List Char)
  | [] => none
  | c :: cs =>
      if c = '-' then
        if startsWithDigit cs then
          let r := parseDigitsAux cs 0
          some (-(r.1 : Int), r.2)
        else none
      else if c.isDigit then
        let r := parseDigitsAux (c :: cs) 0
        some ((r.1 : Int), r.2)
      else none

/-- Consume an expected literal token, character by character. -/
def expectChars : List Char → List Char → Option (List Char)
  | [], cs => some cs
  | _ :: _, [] => none
  | t :: ts, c :: cs => if c = t then expectChars ts cs else none

mutual
/-- Model of JSON.parse on the fragment: a fueled recursive-descent parser
returning the parsed value and the unconsumed remainder.  An input that
parses to the JS value null (the token null), is malformed, or outruns the
fuel yields none. -/
def parseJ : Nat → List Char → Option (JVal × List Char)
  | 0, _ => none
  | fuel + 1, cs =>
      match cs with
      | [] => none
      | c :: rest =>
          if c = 't' then
            match expectChars ['r', 'u', 'e'] rest with
            | some r2 => some (.jbool true, r2)
            | none => none
          else if c = 'f' then
            match expectChars ['a', 'l', 's', 'e'] rest with
            | some r2 => some (.jbool false, r2)
            | none => none
          else if c = '"' then
            match parseStrChars rest with
            | some (s, r2) => some (.jstr (String.mk s), r2)
            | none => none
          else if c = '[' then
            match parseElems fuel rest with
            | some (l, r2) => some (.jarr l, r2)
            | none => none
          else if c = '{' then
            match parseFields fuel rest with
            | some (fs, r2) => some (.jobj fs, r2)
            | none => none
          else
            match parseNum (c :: rest) with
            | some (i, r2) => some (.jnum i, r2)
            | none => none
def parseElems : Nat → List Char → Option (JArr × List Char)
  | 0, _ => none
  | fuel + 1, cs =>
      match cs with
      | [] => none
      | c :: rest =>
          if c = ']' then some (.anil, rest)
          else
            match parseJ fuel (c :: rest) with
            | some (v, r2) =>
                match r2 with
                | [] => none
                | c2 :: r3 =>
                    if c2 = ',' then
                      match parseElems fuel r3 with
                      | some (vs, r4) => some (.acons v vs, r4)
                      | none => none
                    else if c2 = ']' then some (.acons v .anil, r3)
                    else none
            | none => none
def parseFields : Nat → List Char → Option (JFields × List Char)
  | 0, _ => none
  | fuel + 1, cs =>
      match cs with
      | [] => none
      | c :: rest =>
          if c = '}' then some (.fnil, rest)
          else if c = '"' then
            match parseStrChars rest with
            | some (k, r1) =>
                match r1 with
                | ':' :: r2 =>
                    match parseJ fuel r2 with
                    | some (v, r3) =>
                        match r3 with
                        | [] => none
                        | c2 :: r4 =>
                            if c2 = ',' then
                              match parseFields fuel r4 with
                              | some (fs, r5) => some (.fcons (String.mk k) v fs, r5)
                              | none => none
                            else if c2 = '}' then some (.fcons (String.mk k) v .fnil, r4)
                            else none
                    | none => none
                | _ => none
            | none => none
          else none
end

/-- The default serializer: JSON.stringify on the fragment. -/
def serializeJ (v : JVal) : String := String.mk (serJ v)

/-- The default deserializer stringValue => JSON.parse(stringValue || 'null'):
null and the empty string fall back to parsing the token null, which is the
failure sentinel; malformed input (a parse error, modelled together with a
throwing JSON.parse) and a nonempty remainder also yield the sentinel.  The
fuel is generous enough for every serialized value. -/
def deserializeJ : Option String → Option JVal
  | none => none
  | some s =>
      match parseJ (2 * s.data.length + 2) s.data with
      | some (v, []) => some v
      | _ => none

/-- A plain codec on integers (decimal numerals), used to instantiate the
generic model in concrete scenarios. -/
def intSerialize (i : Int) : String := String.mk (serInt i)

/-- The matching integer decoder: null, unparseable strings and trailing
garbage yield null. -/
def intDeserialize : Option String → Option Int
  | none => none
  | some s =>
      match parseNum s.data with
      | some (i, []) => some i
      | _ => none

/-!
## Function-typed values under the typeof dispatch

When ValueType is itself a function type, setSyncValue's runtime check
typeof newValue === 'function' cannot tell a literal new value from an
updater: both are functions.  The runtime values are modelled explicitly,
with functions defunctionalized as codes.
-/

/-- A code for a runtime function value. -/
inductive FCode where
  | idF : FCode
  | constF : Int → FCode
  deriving DecidableEq, Repr

/-- A runtime JS value: a number or a function. -/
inductive JSV where
  | num : Int → JSV
  | fnc : FCode → JSV
  deriving DecidableEq, Repr

/-- Apply a runtime function value to an argument. -/
def applyF : FCode → JSV → JSV
  | .idF, v => v
  | .constF n, _ => .num n

/-- The value-cell step of setSyncValue on runtime values: any function
argument takes the typeof newValue === 'function' branch and is applied to
the old value; only a non-function argument is stored literally. -/
def setSyncValueDyn (arg : JSV) (old : JSV) : JSV :=
  match arg with
  | .fnc c => applyF c old
  | _ => arg

/-!
## Concrete configurations used in the verification scenarios
-/

/-- An integer instance with no durable store. -/
def cfgIntPlain : Config Int :=
  { defaultValue := 0, serialize := intSerialize, deserialize := intDeserialize }

/-- An integer instance persisted under the key k. -/
def cfgIntStore : Config Int :=
  { defaultValue := 0, key := some "k", storage := .store 0,
    serialize := intSerialize, deserialize := intDeserialize }

/-- The persisted integer instance with an onUpdate callback supplied. -/
def cfgIntStoreU : Config Int := { cfgIntStore with hasOnUpdate := true }

/-- A store supplied together with an empty-string key. -/
def cfgEmptyKey : Config Int := { cfgIntStore with key := some "" }

/-- An instance over the JSON fragment with the default codec model and a
durable store under the key k. -/
def cfgJson : Config JVal :=
  { defaultValue := .jnum 0, key := some "k", storage := .store 0,
    serialize := serializeJ, deserialize := deserializeJ }

/-- The listening invariant: with the listener registry as the code keeps
it, the window subscription is attached exactly when storage and key are
truthy and the registry is non-empty. -/
def ListeningInv (cfg : Config α) (w : World α) : Prop :=
  w.listening = ((cfg.storage.truthy && keyTruthy cfg.key) && !w.updaters.isEmpty)

/-- The round-trip property at a given fuel: parsing a serialized value,
array spine, or field spine returns it exactly, leaving the rest. -/
def RTParse (fuel : Nat) : Prop :=
  (∀ (v : JVal) (rest : List Char), fuelJ v ≤ fuel → startsWithDigit rest = false →
    parseJ fuel (serJ v ++ rest) = some (v, rest))
  ∧ (∀ (l : JArr) (rest : List Char), fuelA l ≤ fuel →
    parseElems fuel (serElemsChars l ++ rest) = some (l, rest))
  ∧ (∀ (fs : JFields) (rest : List Char), fuelF fs ≤ fuel →
    parseFields fuel (serFieldsChars fs ++ rest) = some (fs, rest))

/-- The fuel bound property: the fuel a value needs is at most twice its
serialized length. -/
def FuelLe (n : Nat) : Prop :=
  (∀ v : JVal, fuelJ v ≤ n → fuelJ v ≤ 2 * (serJ v).length)
  ∧ (∀ l : JArr, fuelA l ≤ n → fuelA l ≤ 2 * (serElemsChars l).length)
  ∧ (∀ fs : JFields, fuelF fs ≤ n → fuelF fs ≤ 2 * (serFieldsChars fs).length)

/-!
# Claims
-/

/-- Claim C1: an update applies a function argument to the current value
cell content, overwrites the value cell with the new value, and notifies
every registered listener with the raw new value, in registration order,
before the store write; from defaultValue 0, update(1) yields 1, then
update(v => v+1) yields 2, then update(v => v*3) yields 6. -/
theorem claim_C1 :
    (∀ (α : Type) (cfg : Config α) (w : World α) (f : α → α),
      (setSyncValue cfg (.fn f) w).1.value = f w.value)
    ∧ (∀ (α : Type) (cfg : Config α) (w : World α) (x : α),
      (setSyncValue cfg (.lit x) w).1.value = x)
    ∧ (∀ (α : Type) (cfg : Config α) (w : World α) (arg : NewValue α),
      (setSyncValue cfg arg w).2 =
        w.updaters.map (fun i => Event.notify i (setSyncValue cfg arg w).1.value)
          ++ persistEvents cfg (setSyncValue cfg arg w).1.value
      ∧ ∀ e ∈ persistEvents cfg (setSyncValue cfg arg w).1.value,
          ∃ k s, e = Event.storeSet k s)
    ∧ (createSyncState cfgIntPlain [] =
        .ok ({ value := 0, updaters := [], listening := false, contents := [] }, [])
      ∧ useSyncValueRead (setSyncValue cfgIntPlain (.lit 1)
          (attachUpdater cfgIntPlain 1
            { value := 0, updaters := [], listening := false, contents := [] })).1 = 1
      ∧ (setSyncValue cfgIntPlain (.lit 1)
          (attachUpdater cfgIntPlain 1
            { value := 0, updaters := [], listening := false, contents := [] })).2
          = [Event.notify 1 1]
      ∧ useSyncValueRead (setSyncValue cfgIntPlain (.fn (fun v => v + 1))
          (setSyncValue cfgIntPlain (.lit 1)
            (attachUpdater cfgIntPlain 1
              { value := 0, updaters := [], listening := false, contents := [] })).1).1 = 2
      ∧ useSyncValueRead (setSyncValue cfgIntPlain (.fn (fun v => v * 3))
          (setSyncValue cfgIntPlain (.fn (fun v => v + 1))
            (setSyncValue cfgIntPlain (.lit 1)
              (attachUpdater cfgIntPlain 1
                { value := 0, updaters := [], listening := false, contents := [] })).1).1).1 = 6) := by
  refine ⟨fun α cfg w f => rfl, fun α cfg w x => rfl, fun α cfg w arg => ⟨rfl, ?_⟩, rfl, rfl, rfl, rfl, rfl⟩
  intro e he
  unfold persistEvents at he
  split at he
  · split at he
    · simp at he
    · simp at he
      exact ⟨_, _, he⟩
  · simp at he

/-- Claim C10: for a function-typed ValueType the update operation can
never store a function passed as a literal new value — the typeof dispatch
treats every function argument as an updater, so the cell afterwards holds
the application of the argument to the old value. -/
theorem claim_C10 :
    (∀ (c : FCode) (old : JSV), setSyncValueDyn (.fnc c) old = applyF c old)
    ∧ (∀ (c : FCode) (old : JSV),
        applyF c old ≠ .fnc c → setSyncValueDyn (.fnc c) old ≠ .fnc c)
    ∧ setSyncValueDyn (.fnc (.constF 5)) (.num 0) = .num 5 :=
  ⟨fun _ _ => rfl, fun c old h => by simpa [setSyncValueDyn] using h, rfl⟩

/-- Witness for claim C10 at a concrete function argument. -/
theorem claim_C10_witness :
    applyF (.constF 5) (.num 0) ≠ .fnc (.constF 5)
    ∧ setSyncValueDyn (.fnc (.constF 5)) (.num 0) ≠ .fnc (.constF 5) :=
  ⟨by decide, claim_C10.2.1 (.constF 5) (.num 0) (by decide)⟩

/-- Claim C3: an external notification matching the configured store and
key whose raw value decodes non-null overwrites the value cell with the
decoded value and notifies every registered listener with it, without
touching the store contents. -/
theorem claim_C3 :
    ∀ (α : Type) (cfg : Config α) (sid : Nat) (k : String) (v : α)
      (w : World α) (ev : SEvent),
    cfg.storage = .store sid → cfg.key = some k →
    ev.storageArea = some sid → ev.key = some k →
    cfg.deserialize ev.newValue = some v →
    storageEventListener cfg ev w
      = ({ w with value := v }, w.updaters.map (fun i => Event.notify i v))
    ∧ (storageEventListener cfg ev w).1.contents = w.contents
    ∧ ∀ e ∈ (storageEventListener cfg ev w).2, ∃ i, e = Event.notify i v := by
  intro α cfg sid k v w ev hs hk hes hek hd
  have hcond : (areaMatches ev.storageArea cfg.storage
      && keyMatches ev.key cfg.key) = true := by
    rw [hs, hk, hes, hek]
    simp [areaMatches, keyMatches]
  refine ⟨?_, ?_, ?_⟩
  · simp only [storageEventListener, hcond, if_true, hd, callUpdaters]
  · simp only [storageEventListener, hcond, if_true, hd, callUpdaters]
  · simp only [storageEventListener, hcond, if_true, hd, callUpdaters]
    intro e he
    simp only [List.mem_map] at he
    obtain ⟨i, _, hi⟩ := he
    exact ⟨i, hi.symm⟩

/-- Witness for claim C3 at a matching concrete event. -/
theorem claim_C3_witness :
    intDeserialize (some "5") = some 5
    ∧ storageEventListener cfgIntStore ⟨some 0, some "k", some "5"⟩
        { value := 1, updaters := [4, 2], listening := true, contents := [("k", "1")] }
      = ({ value := 5, updaters := [4, 2], listening := true, contents := [("k", "1")] },
         [Event.notify 4 5, Event.notify 2 5]) := by
  refine ⟨by decide, ?_⟩
  exact (claim_C3 Int cfgIntStore 0 "k" 5
    { value := 1, updaters := [4, 2], listening := true, contents := [("k", "1")] }
    ⟨some 0, some "k", some "5"⟩ rfl rfl rfl rfl (by decide)).1

/-- Claim C4: an external notification whose store identity or key does not
match, or whose new raw value is absent or decodes to null, leaves the
state unchanged and notifies no listener — given the codec contract that
decoding null yields null. -/
theorem claim_C4 :
    ∀ (α : Type) (cfg : Config α) (ev : SEvent) (w : World α),
    cfg.deserialize none = none →
    (areaMatches ev.storageArea cfg.storage = false
      ∨ keyMatches ev.key cfg.key = false
      ∨ ev.newValue = none
      ∨ cfg.deserialize ev.newValue = none) →
    storageEventListener cfg ev w = (w, []) := by
  intro α cfg ev w hnull h
  by_cases hcond : (areaMatches ev.storageArea cfg.storage
      && keyMatches ev.key cfg.key) = true
  · have hdn : cfg.deserialize ev.newValue = none := by
      rcases h with h | h | h | h
      · simp [h] at hcond
      · simp [h] at hcond
      · rw [h, hnull]
      · exact h
    simp only [storageEventListener, hcond, if_true, hdn]
  · simp [storageEventListener, hcond]

/-- Witness for claim C4 at a concrete event with a mismatching key. -/
theorem claim_C4_witness :
    intDeserialize none = none
    ∧ keyMatches (some "other") cfgIntStore.key = false
    ∧ storageEventListener cfgIntStore ⟨some 0, some "other", some "5"⟩
        { value := 1, updaters := [4], listening := true, contents := [] }
      = ({ value := 1, updaters := [4], listening := true, contents := [] }, []) :=
  ⟨rfl, by decide,
    claim_C4 Int cfgIntStore ⟨some 0, some "other", some "5"⟩
      { value := 1, updaters := [4], listening := true, contents := [] }
      rfl (Or.inr (Or.inl (by decide)))⟩

/-- Claim C5 (spec-modelled onUpdate build): when an onUpdate callback is
supplied, every update invokes it exactly once with the new value, after
listener notification and after the store write. -/
theorem claim_C5 :
    ∀ (α : Type) (cfg : Config α) (arg : NewValue α) (w : World α),
    cfg.hasOnUpdate = true →
    (setSyncValueU cfg arg w).2 =
      callUpdaters w.updaters (computeNewValue arg w.value)
        ++ persistEvents cfg (computeNewValue arg w.value)
        ++ [Event.onUpdateCall (computeNewValue arg w.value)]
    ∧ (setSyncValueU cfg arg w).2.countP
        (fun e => match e with | .onUpdateCall _ => true | _ => false) = 1 := by
  intro α cfg arg w hu
  have h1 : (callUpdaters w.updaters (computeNewValue arg w.value)).countP
      (fun e => match e with | Event.onUpdateCall _ => true | _ => false) = 0 := by
    unfold callUpdaters
    rw [List.countP_map]
    simp [Function.comp]
  have h2 : (persistEvents cfg (computeNewValue arg w.value)).countP
      (fun e => match e with | Event.onUpdateCall _ => true | _ => false) = 0 := by
    unfold persistEvents
    split
    · split <;> simp
    · simp
  constructor
  · simp only [setSyncValueU, setSyncValue, hu, if_true, List.append_assoc]
  · simp only [setSyncValueU, setSyncValue, hu, if_true]
    rw [List.countP_append, List.countP_append, h1, h2]
    simp

/-- Witness for claim C5 at a concrete update with onUpdate supplied. -/
theorem claim_C5_witness :
    cfgIntStoreU.hasOnUpdate = true
    ∧ (setSyncValueU cfgIntStoreU (.lit 5)
        { value := 0, updaters := [3], listening := true, contents := [] }).2 =
      callUpdaters [3] 5 ++ persistEvents cfgIntStoreU 5 ++ [Event.onUpdateCall 5] :=
  ⟨rfl, (claim_C5 Int cfgIntStoreU (.lit 5)
    { value := 0, updaters := [3], listening := true, contents := [] } rfl).1⟩

/-- Counterexample to claim C6 as stated: constructing with both a store
and a key supplied can still fail, at the empty-string key: the guard tests JS truthiness,
and an empty string is falsy, so the constructor throws. -/
theorem claim_C6_counterexample :
    cfgEmptyKey.storage = .store 0 ∧ cfgEmptyKey.key = some ""
    ∧ createSyncState cfgEmptyKey [] = .error .invalidConfiguration :=
  ⟨rfl, rfl, rfl⟩

/-- Claim C6 (amended): the constructor fails with InvalidConfiguration iff
a store is supplied and the key is absent or empty (falsy); construction
succeeds whenever a nonempty key is supplied or no store is supplied. -/
theorem claim_C6 :
    ∀ (α : Type) (cfg : Config α) (contents : StoreMap),
    (createSyncState cfg contents = .error .invalidConfiguration ↔
      cfg.storage.truthy = true ∧ keyTruthy cfg.key = false)
    ∧ (keyTruthy cfg.key = true ∨ cfg.storage.truthy = false →
        ∃ w evs, createSyncState cfg contents = .ok (w, evs))
    ∧ (keyTruthy cfg.key = true ↔ ∃ s, cfg.key = some s ∧ s ≠ "") := by
  intro α cfg contents
  refine ⟨?_, ?_, ?_⟩
  · unfold createSyncState
    constructor
    · intro h
      by_cases hc : (cfg.storage.truthy && !keyTruthy cfg.key) = true
      · simp only [Bool.and_eq_true, Bool.not_eq_true'] at hc
        exact hc
      · rw [if_neg hc] at h
        exact absurd h (by simp)
    · intro ⟨h1, h2⟩
      rw [if_pos (by simp [h1, h2])]
  · intro h
    unfold createSyncState
    rw [if_neg]
    · exact ⟨_, _, rfl⟩
    · rcases h with h | h <;> simp [h]
  · cases hk : cfg.key with
    | none => simp [keyTruthy]
    | some s =>
      simp only [keyTruthy]
      constructor
      · intro h
        refine ⟨s, rfl, ?_⟩
        intro hs
        rw [hs] at h
        exact absurd h (by decide)
      · intro ⟨s2, hs2, hne⟩
        cases hs2
        simp only [Bool.not_eq_true', Bool.eq_false_iff, Ne, String.isEmpty_iff]
        exact hne

/-- Witness for claim C6 at a store-plus-nonempty-key configuration. -/
theorem claim_C6_witness :
    keyTruthy cfgIntStore.key = true
    ∧ (∃ w evs, createSyncState cfgIntStore [] = .ok (w, evs)) :=
  ⟨rfl, (claim_C6 Int cfgIntStore []).2.1 (Or.inl rfl)⟩

/-- An updater absent from the registry has indexOf -1. -/
theorem jsIndexOf_of_not_mem :
    ∀ (l : List Nat) (id : Nat), id ∉ l → jsIndexOf l id = -1 := by
  intro l id h
  induction l with
  | nil => rfl
  | cons x xs ih =>
    simp only [List.mem_cons, not_or] at h
    obtain ⟨hx, hxs⟩ := h
    simp only [jsIndexOf, beq_iff_eq]
    rw [if_neg (fun he => hx he.symm)]
    rw [ih hxs]
    simp

/-- An updater present in the registry has a nonnegative indexOf. -/
theorem jsIndexOf_nonneg_of_mem :
    ∀ (l : List Nat) (id : Nat), id ∈ l → 0 ≤ jsIndexOf l id := by
  intro l id h
  induction l with
  | nil => simp at h
  | cons x xs ih =>
    by_cases hx : x = id
    · simp [jsIndexOf, hx]
    · have hm : id ∈ xs := by
        rcases List.mem_cons.mp h with h1 | h1
        · exact absurd h1.symm hx
        · exact h1
      have h0 := ih hm
      simp only [jsIndexOf, beq_iff_eq]
      rw [if_neg hx]
      have hne : jsIndexOf xs id ≠ -1 := by omega
      rw [if_neg hne]
      omega

/-- Removing a present updater removes exactly its first occurrence. -/
theorem removeUpdater_eq_erase :
    ∀ (l : List Nat) (id : Nat), id ∈ l → removeUpdater l id = l.erase id := by
  intro l id h
  induction l with
  | nil => simp at h
  | cons x xs ih =>
    by_cases hx : x = id
    · subst hx
      simp only [removeUpdater, jsIndexOf, beq_self_eq_true, if_true,
        jsSpliceRemoveOne, List.erase_cons_head]
      norm_num
    · have hm : id ∈ xs := by
        rcases List.mem_cons.mp h with h1 | h1
        · exact absurd h1.symm hx
        · exact h1
      have h0 := jsIndexOf_nonneg_of_mem xs id hm
      have hstep : removeUpdater (x :: xs) id = x :: removeUpdater xs id := by
        simp only [removeUpdater, jsIndexOf, beq_iff_eq]
        rw [if_neg hx]
        have hne : jsIndexOf xs id ≠ -1 := by omega
        rw [if_neg hne]
        simp only [jsSpliceRemoveOne]
        rw [if_neg (by omega : ¬ jsIndexOf xs id + 1 < 0),
          if_neg (by omega : ¬ jsIndexOf xs id < 0)]
        have ht : (jsIndexOf xs id + 1).toNat = (jsIndexOf xs id).toNat + 1 := by omega
        rw [ht, List.take_succ_cons, List.drop_succ_cons]
        rfl
      rw [hstep, ih hm, List.erase_cons_tail]
      simp [beq_iff_eq, hx]

/-- Removing an absent updater splices at -1, which drops the last
registered updater (and is a no-op only on an empty registry). -/
theorem removeUpdater_of_not_mem :
    ∀ (l : List Nat) (id : Nat), id ∉ l → removeUpdater l id = l.dropLast := by
  intro l id h
  unfold removeUpdater
  rw [jsIndexOf_of_not_mem l id h]
  simp only [jsSpliceRemoveOne]
  rw [if_pos (by omega : (-1 : Int) < 0)]
  have hs : ((l.length : Int) + -1).toNat = l.length - 1 := by omega
  rw [hs]
  rw [List.drop_eq_nil_of_le (by omega : l.length ≤ l.length - 1 + 1)]
  rw [List.append_nil, List.dropLast_eq_take]

/-- Counterexample to claim C7 as stated: a teardown run for an
already-removed (or never registered) listener does not remove nothing: indexOf yields
-1 and splice(-1, 1) removes the last registered listener.  After removing
listener 1 from [1, 2], a second run removes listener 2. -/
theorem claim_C7_counterexample :
    removeUpdater [1, 2] 1 = [2]
    ∧ removeUpdater (removeUpdater [1, 2] 1) 1 = []
    ∧ ([] : List Nat) ≠ [2] := by decide

/-- Claim C7 (amended): a teardown for a registered listener removes
exactly that listener (its first occurrence) and raises no error, and a
listener registered once is gone afterwards; a run on an empty registry
removes nothing; but a run for an absent listener on a non-empty registry
removes the most recently registered listener instead of nothing. -/
theorem claim_C7 :
    (∀ (l : List Nat) (id : Nat), id ∈ l → removeUpdater l id = l.erase id)
    ∧ (∀ id : Nat, removeUpdater [] id = [])
    ∧ (∀ (l : List Nat) (id : Nat), id ∉ l → removeUpdater l id = l.dropLast)
    ∧ (∀ (l : List Nat) (id : Nat), l.count id = 1 → id ∉ removeUpdater l id) := by
  refine ⟨removeUpdater_eq_erase, fun id => rfl, removeUpdater_of_not_mem, ?_⟩
  intro l id hc
  have hm : id ∈ l := by
    have : 0 < l.count id := by omega
    exact List.count_pos_iff.mp this
  rw [removeUpdater_eq_erase l id hm]
  intro hmem
  have h0 := List.count_erase_self id l
  have h1 : 0 < (l.erase id).count id := List.count_pos_iff.mpr hmem
  omega

/-- Witness for claim C7 at concrete registries. -/
theorem claim_C7_witness :
    removeUpdater [5, 6, 7] 6 = [5, 6, 7].erase 6
    ∧ removeUpdater [] 4 = []
    ∧ removeUpdater [8, 9] 3 = [8, 9].dropLast
    ∧ 6 ∉ removeUpdater [5, 6, 7] 6 :=
  ⟨claim_C7.1 [5, 6, 7] 6 (by decide), claim_C7.2.1 4,
    claim_C7.2.2.1 [8, 9] 3 (by decide), claim_C7.2.2.2 [5, 6, 7] 6 (by decide)⟩

/-- Attaching an updater preserves the listening invariant. -/
theorem listeningInv_attach (cfg : Config α) (id : Nat) (w : World α)
    (h : ListeningInv cfg w) : ListeningInv cfg (attachUpdater cfg id w) := by
  unfold ListeningInv attachUpdater at *
  cases hu : w.updaters with
  | nil =>
    rw [hu] at h
    cases hsk : (cfg.storage.truthy && keyTruthy cfg.key) <;>
      simp [hu, hsk] at h ⊢
    exact h
  | cons x xs =>
    rw [hu] at h
    have hlen : ((x :: xs ++ [id]).length == 1) = false := by
      simp [List.length_append]
    simp only [hu, hlen, Bool.false_and, if_false]
    cases hsk : (cfg.storage.truthy && keyTruthy cfg.key) <;>
      simp [hsk] at h ⊢ <;> exact h

/-- Detaching an updater preserves the listening invariant. -/
theorem listeningInv_detach (cfg : Config α) (id : Nat) (w : World α)
    (h : ListeningInv cfg w) : ListeningInv cfg (detachUpdater cfg id w) := by
  unfold ListeningInv detachUpdater at *
  cases hu : removeUpdater w.updaters id with
  | nil =>
    cases hsk : (cfg.storage.truthy && keyTruthy cfg.key) <;>
      simp only [hu, hsk] at h ⊢ <;> simp at h ⊢
    exact h
  | cons x xs =>
    have hw : w.updaters ≠ [] := by
      intro he
      rw [he] at hu
      have h0 : removeUpdater [] id = [] := rfl
      rw [h0] at hu
      exact List.noConfusion hu
    have hie : w.updaters.isEmpty = false := by
      cases hw2 : w.updaters with
      | nil => exact absurd hw2 hw
      | cons y ys => rfl
    have hlen : ((x :: xs).length == 0) = false := by simp
    simp only [hu, hlen, Bool.false_and, Bool.and_false, if_false]
    rw [h, hie]
    simp

/-- The listening invariant is preserved by any sequence of hook steps. -/
theorem listeningInv_runHookOps (cfg : Config α) (w : World α)
    (ops : List HookOp) (h : ListeningInv cfg w) :
    ListeningInv cfg (runHookOps cfg w ops) := by
  induction ops generalizing w with
  | nil => exact h
  | cons op ops ih =>
    cases op with
    | attach id => exact ih _ (listeningInv_attach cfg id w h)
    | detach id => exact ih _ (listeningInv_detach cfg id w h)

/-- Claim C8: starting from construction (empty registry, not listening),
after any sequence of attach / detach steps the external-notification
subscription is active exactly when a store and key are configured and the
registry is non-empty — so it activates on the registration that makes the
registry size 1, deactivates on the removal that empties it, cycles
arbitrarily often, and is never active without a store and key. -/
theorem claim_C8 :
    ∀ (α : Type) (cfg : Config α) (w : World α) (ops : List HookOp),
    w.updaters = [] → w.listening = false →
    (runHookOps cfg w ops).listening =
      ((cfg.storage.truthy && keyTruthy cfg.key)
        && !(runHookOps cfg w ops).updaters.isEmpty) := by
  intro α cfg w ops hu hl
  have h0 : ListeningInv cfg w := by
    unfold ListeningInv
    rw [hu, hl]
    simp
  exact listeningInv_runHookOps cfg w ops h0

/-- Witness for claim C8 over a concrete attach / detach history. -/
theorem claim_C8_witness :
    (runHookOps cfgIntStore { value := 0, updaters := [], listening := false, contents := [] }
        [.attach 1, .attach 2, .detach 1, .detach 2, .attach 3]).listening =
      ((cfgIntStore.storage.truthy && keyTruthy cfgIntStore.key)
        && !(runHookOps cfgIntStore
              { value := 0, updaters := [], listening := false, contents := [] }
              [.attach 1, .attach 2, .detach 1, .detach 2, .attach 3]).updaters.isEmpty) :=
  claim_C8 Int cfgIntStore _ _ rfl rfl

/-!
## Round-trip of the default codec model
-/

/-- Reading back an escaped string body stops at the closing quote and
undoes the escapes. -/
theorem parseStrChars_escChars :
    ∀ (s rest : List Char),
    parseStrChars (escChars s ++ '"' :: rest) = some (s, rest) := by
  intro s
  induction s with
  | nil =>
    intro rest
    simp [parseStrChars, parseStrCharsAux, escChars]
  | cons c cs ih =>
    intro rest
    have he : escChars (c :: cs) ++ '"' :: rest
        = quoteChar c ++ (escChars cs ++ '"' :: rest) := by
      simp [escChars]
    rw [he]
    by_cases h1 : c = '"'
    · subst h1
      have hq : quoteChar '"' = ['\\', '"'] := by simp [quoteChar]
      rw [hq]
      simp only [parseStrChars] at ih ⊢
      simp [parseStrCharsAux, ih rest]
    · by_cases h2 : c = '\\'
      · subst h2
        have hq : quoteChar '\\' = ['\\', '\\'] := by simp [quoteChar]
        rw [hq]
        simp only [parseStrChars] at ih ⊢
        simp [parseStrCharsAux, ih rest]
      · have hq : quoteChar c = [c] := by simp [quoteChar, h1, h2]
        rw [hq]
        simp only [parseStrChars] at ih ⊢
        simp [parseStrCharsAux, h1, h2, ih rest]

/-- The same round-trip fact stated on the worker of parseStrChars. -/
theorem parseStrCharsAux_escChars :
    ∀ (s rest : List Char),
    parseStrCharsAux false (escChars s ++ '"' :: rest) = some (s, rest) :=
  parseStrChars_escChars

/-- Every digit character is a digit. -/
theorem digitChar_isDigit : ∀ d : Nat, (digitChar d).isDigit = true := by
  intro d
  unfold digitChar
  split <;> decide

/-- digitVal inverts digitChar below 10. -/
theorem digitVal_digitChar : ∀ d : Nat, d < 10 → digitVal (digitChar d) = d := by
  intro d hd
  interval_cases d <;> decide

/-- natDigitsAux ignores the fuel as long as it exceeds the number. -/
theorem natDigitsAux_fuel :
    ∀ (f1 : Nat), ∀ (n : Nat), ∀ (f2 : Nat), n < f1 → n < f2 →
    natDigitsAux f1 n = natDigitsAux f2 n := by
  intro f1
  induction f1 with
  | zero => intro n f2 h1; omega
  | succ f1 ih =>
    intro n f2 h1 h2
    cases f2 with
    | zero => omega
    | succ f2 =>
      simp only [natDigitsAux]
      by_cases h10 : n < 10
      · rw [if_pos h10, if_pos h10]
      · rw [if_neg h10, if_neg h10]
        have hd : n / 10 < n := Nat.div_lt_self (by omega) (by omega)
        rw [ih (n / 10) f2 (by omega) (by omega)]

/-- The recurrence of natDigits. -/
theorem natDigits_eq :
    ∀ n : Nat, natDigits n =
      if n < 10 then [digitChar n]
      else natDigits (n / 10) ++ [digitChar (n % 10)] := by
  intro n
  unfold natDigits
  conv_lhs => rw [natDigitsAux]
  by_cases h10 : n < 10
  · rw [if_pos h10, if_pos h10]
  · rw [if_neg h10, if_neg h10]
    have hd : n / 10 < n := Nat.div_lt_self (by omega) (by omega)
    rw [natDigitsAux_fuel n (n / 10) (n / 10 + 1) (by omega) (by omega)]

/-- natDigits is never empty. -/
theorem natDigits_ne_nil : ∀ n : Nat, natDigits n ≠ [] := by
  intro n
  rw [natDigits_eq]
  split
  · simp
  · simp

/-- Every character of natDigits is a digit. -/
theorem natDigits_all_digits :
    ∀ n : Nat, ∀ c ∈ natDigits n, c.isDigit = true := by
  intro n
  induction n using Nat.strong_induction_on with
  | _ n ih =>
    rw [natDigits_eq]
    split
    · intro c hc
      simp only [List.mem_singleton] at hc
      rw [hc]
      exact digitChar_isDigit n
    · intro c hc
      rw [List.mem_append] at hc
      rcases hc with hc | hc
      · exact ih (n / 10) (Nat.div_lt_self (by omega) (by omega)) c hc
      · simp only [List.mem_singleton] at hc
        rw [hc]
        exact digitChar_isDigit (n % 10)

/-- Reading a run of digit characters followed by a non-digit accumulates
their value by a left fold. -/
theorem parseDigitsAux_append :
    ∀ (xs : List Char), (∀ c ∈ xs, c.isDigit = true) →
    ∀ (rest : List Char), startsWithDigit rest = false → ∀ (acc : Nat),
    parseDigitsAux (xs ++ rest) acc
      = (xs.foldl (fun a c => a * 10 + digitVal c) acc, rest) := by
  intro xs
  induction xs with
  | nil =>
    intro _ rest hr acc
    cases rest with
    | nil => rfl
    | cons r rs =>
      simp only [startsWithDigit] at hr
      simp [List.nil_append, List.foldl_nil, parseDigitsAux, hr]
  | cons c cs ih =>
    intro hd rest hr acc
    have hc : c.isDigit = true := hd c (by simp)
    simp only [List.cons_append, parseDigitsAux, hc, if_true, List.foldl_cons]
    exact ih (fun x hx => hd x (by simp [hx])) rest hr _

/-- Folding the digits of a natural number from an accumulator scales the
accumulator by the numeral's width and adds the number. -/
theorem foldl_natDigits :
    ∀ (n : Nat) (acc : Nat),
    (natDigits n).foldl (fun a c => a * 10 + digitVal c) acc
      = acc * 10 ^ (natDigits n).length + n := by
  intro n
  induction n using Nat.strong_induction_on with
  | _ n ih =>
    intro acc
    rw [natDigits_eq n]
    by_cases h10 : n < 10
    · rw [if_pos h10]
      simp [digitVal_digitChar n h10]
    · rw [if_neg h10]
      rw [List.foldl_append, List.length_append]
      rw [ih (n / 10) (Nat.div_lt_self (by omega) (by omega)) acc]
      simp only [List.foldl_cons, List.foldl_nil, List.length_cons,
        List.length_nil]
      rw [digitVal_digitChar (n % 10) (by omega)]
      have hmod : 10 * (n / 10) + n % 10 = n := Nat.div_add_mod n 10
      rw [pow_succ]
      generalize (10 : Nat) ^ (natDigits (n / 10)).length = L
      ring_nf
      omega

/-- Reading back the digits of a natural number yields the number. -/
theorem parseDigitsAux_natDigits :
    ∀ (n : Nat) (rest : List Char), startsWithDigit rest = false →
    parseDigitsAux (natDigits n ++ rest) 0 = (n, rest) := by
  intro n rest hr
  rw [parseDigitsAux_append (natDigits n) (natDigits_all_digits n) rest hr 0]
  rw [foldl_natDigits n 0]
  simp

/-- The numeral of an integer parses back to the integer. -/
theorem parseNum_serInt :
    ∀ (i : Int) (rest : List Char), startsWithDigit rest = false →
    parseNum (serInt i ++ rest) = some (i, rest) := by
  intro i rest hr
  by_cases hneg : i < 0
  · have hs : serInt i = '-' :: natDigits (-i).toNat := by
      unfold serInt
      rw [if_pos hneg]
    rw [hs]
    obtain ⟨d, ds, hnd⟩ :
        ∃ d ds, natDigits (-i).toNat = d :: ds := by
      cases hd : natDigits (-i).toNat with
      | nil => exact absurd hd (natDigits_ne_nil _)
      | cons d ds => exact ⟨d, ds, rfl⟩
    have hswd : startsWithDigit (natDigits (-i).toNat ++ rest) = true := by
      rw [hnd]
      simp only [List.cons_append, startsWithDigit]
      exact natDigits_all_digits _ d (by rw [hnd]; simp)
    simp only [List.cons_append, parseNum, if_pos rfl]
    rw [hswd]
    simp only [if_true]
    rw [parseDigitsAux_natDigits (-i).toNat rest hr]
    have : (((-i).toNat : Int)) = -i := by omega
    rw [this]
    simp
  · have hs : serInt i = natDigits i.toNat := by
      unfold serInt
      rw [if_neg hneg]
    rw [hs]
    obtain ⟨d, ds, hnd⟩ :
        ∃ d ds, natDigits i.toNat = d :: ds := by
      cases hd : natDigits i.toNat with
      | nil => exact absurd hd (natDigits_ne_nil _)
      | cons d ds => exact ⟨d, ds, rfl⟩
    have hd1 : d.isDigit = true := natDigits_all_digits _ d (by rw [hnd]; simp)
    have hdni : ¬ d = '-' := by
      intro h
      rw [h] at hd1
      exact absurd hd1 (by decide)
    rw [hnd, List.cons_append]
    simp only [parseNum, if_neg hdni, hd1, if_true]
    rw [← List.cons_append, ← hnd]
    rw [parseDigitsAux_natDigits i.toNat rest hr]
    have : ((i.toNat : Int)) = i := by omega
    rw [this]

/-- Every JSON value needs at least one unit of fuel. -/
theorem fuelJ_pos : ∀ v : JVal, 1 ≤ fuelJ v := by
  intro v
  cases v <;> simp [fuelJ]

/-- Every array spine needs at least one unit of fuel. -/
theorem fuelA_pos : ∀ l : JArr, 1 ≤ fuelA l := by
  intro l
  cases l <;> simp [fuelA]
  omega

/-- Every field spine needs at least one unit of fuel. -/
theorem fuelF_pos : ∀ fs : JFields, 1 ≤ fuelF fs := by
  intro fs
  cases fs <;> simp [fuelF]
  omega

/-- A digit character is none of the parser's structural tokens. -/
theorem isDigit_ne_tokens :
    ∀ c : Char, c.isDigit = true →
    c ≠ 't' ∧ c ≠ 'f' ∧ c ≠ '"' ∧ c ≠ '[' ∧ c ≠ '{' ∧ c ≠ ']' ∧ c ≠ '-' := by
  intro c hc
  refine ⟨?_, ?_, ?_, ?_, ?_, ?_, ?_⟩ <;>
    (intro h; rw [h] at hc; exact absurd hc (by decide))

/-- A serialized integer starts with a minus sign or a digit. -/
theorem serInt_head :
    ∀ i : Int, ∃ c cs, serInt i = c :: cs ∧ (c = '-' ∨ c.isDigit = true) := by
  intro i
  by_cases hneg : i < 0
  · refine ⟨'-', natDigits (-i).toNat, ?_, Or.inl rfl⟩
    unfold serInt
    rw [if_pos hneg]
  · obtain ⟨d, ds, hnd⟩ :
        ∃ d ds, natDigits i.toNat = d :: ds := by
      cases hd : natDigits i.toNat with
      | nil => exact absurd hd (natDigits_ne_nil _)
      | cons d ds => exact ⟨d, ds, rfl⟩
    refine ⟨d, ds, ?_, Or.inr ?_⟩
    · unfold serInt
      rw [if_neg hneg, hnd]
    · exact natDigits_all_digits _ d (by rw [hnd]; simp)

/-- A serialized value is nonempty and never starts with a closing
bracket. -/
theorem serJ_head :
    ∀ v : JVal, ∃ c cs, serJ v = c :: cs ∧ c ≠ ']' := by
  intro v
  cases v with
  | jbool b =>
    cases b
    · exact ⟨'f', ['a', 'l', 's', 'e'], rfl, by decide⟩
    · exact ⟨'t', ['r', 'u', 'e'], rfl, by decide⟩
  | jnum i =>
    obtain ⟨c, cs, hc, hd⟩ := serInt_head i
    refine ⟨c, cs, by simp [serJ, hc], ?_⟩
    rcases hd with h | h
    · rw [h]; decide
    · exact (isDigit_ne_tokens c h).2.2.2.2.2.1
  | jstr s => exact ⟨'"', escChars s.data ++ ['"'], rfl, by decide⟩
  | jarr l => exact ⟨'[', serElemsChars l, rfl, by decide⟩
  | jobj fs => exact ⟨'{', serFieldsChars fs, rfl, by decide⟩

/-- The fueled parser inverts the serializer whenever the fuel covers the
value. -/
theorem rtParse : ∀ fuel : Nat, RTParse fuel := by
  intro fuel
  induction fuel with
  | zero =>
    refine ⟨?_, ?_, ?_⟩
    · intro v rest hb _
      have := fuelJ_pos v
      omega
    · intro l rest hb
      have := fuelA_pos l
      omega
    · intro fs rest hb
      have := fuelF_pos fs
      omega
  | succ fuel ih =>
    obtain ⟨ih1, ih2, ih3⟩ := ih
    refine ⟨?_, ?_, ?_⟩
    · intro v rest hb hr
      cases v with
      | jbool b => cases b <;> simp [serJ, parseJ, expectChars]
      | jnum i =>
        obtain ⟨c, cs, hc, hd⟩ := serInt_head i
        have hser : serJ (JVal.jnum i) ++ rest = c :: (cs ++ rest) := by
          simp [serJ, hc]
        rw [hser]
        have hnum : parseNum (c :: (cs ++ rest)) = some (i, rest) := by
          rw [← List.cons_append, ← hc]
          exact parseNum_serInt i rest hr
        rcases hd with h | h
        · subst h
          simp [parseJ, hnum]
        · obtain ⟨h1, h2, h3, h4, h5, _, _⟩ := isDigit_ne_tokens c h
          simp [parseJ, h1, h2, h3, h4, h5, hnum]
      | jstr s =>
        have hser : serJ (JVal.jstr s) ++ rest
            = '"' :: (escChars s.data ++ '"' :: rest) := by
          simp [serJ]
        rw [hser]
        simp [parseJ, parseStrChars_escChars s.data rest,
          parseStrCharsAux_escChars s.data rest]
      | jarr l =>
        have hser : serJ (JVal.jarr l) ++ rest
            = '[' :: (serElemsChars l ++ rest) := by
          simp [serJ]
        rw [hser]
        have hl : parseElems fuel (serElemsChars l ++ rest) = some (l, rest) := by
          refine ih2 l rest ?_
          simp only [fuelJ] at hb
          omega
        simp [parseJ, hl]
      | jobj fs =>
        have hser : serJ (JVal.jobj fs) ++ rest
            = '{' :: (serFieldsChars fs ++ rest) := by
          simp [serJ]
        rw [hser]
        have hf : parseFields fuel (serFieldsChars fs ++ rest) = some (fs, rest) := by
          refine ih3 fs rest ?_
          simp only [fuelJ] at hb
          omega
        simp [parseJ, hf]
    · intro l rest hb
      cases l with
      | anil => simp [serElemsChars, parseElems]
      | acons v vs =>
        obtain ⟨c, cs, hc, hne⟩ := serJ_head v
        cases vs with
        | anil =>
          have hser : serElemsChars (JArr.acons v .anil) ++ rest
              = c :: (cs ++ (']' :: rest)) := by
            simp [serElemsChars, hc]
          rw [hser]
          have hv : parseJ fuel (c :: (cs ++ (']' :: rest)))
              = some (v, ']' :: rest) := by
            rw [← List.cons_append, ← hc]
            refine ih1 v (']' :: rest) ?_ (by simp [startsWithDigit])
            simp only [fuelA] at hb
            have := fuelA_pos JArr.anil
            omega
          simp [parseElems, hne, hv]
        | acons w ws =>
          have hser : serElemsChars (JArr.acons v (JArr.acons w ws)) ++ rest
              = c :: (cs ++ (',' :: (serElemsChars (JArr.acons w ws) ++ rest))) := by
            simp [serElemsChars, hc]
          rw [hser]
          have hv : parseJ fuel
              (c :: (cs ++ (',' :: (serElemsChars (JArr.acons w ws) ++ rest))))
              = some (v, ',' :: (serElemsChars (JArr.acons w ws) ++ rest)) := by
            rw [← List.cons_append, ← hc]
            refine ih1 v _ ?_ (by simp [startsWithDigit])
            simp only [fuelA] at hb
            omega
          have hw : parseElems fuel (serElemsChars (JArr.acons w ws) ++ rest)
              = some (JArr.acons w ws, rest) := by
            refine ih2 _ rest ?_
            simp only [fuelA] at hb ⊢
            omega
          simp [parseElems, hne, hv, hw]
    · intro fs rest hb
      cases fs with
      | fnil => simp [serFieldsChars, parseFields]
      | fcons k v tl =>
        cases tl with
        | fnil =>
          have hser : serFieldsChars (JFields.fcons k v .fnil) ++ rest
              = '"' :: (escChars k.data ++ '"' :: (':' :: (serJ v ++ ('}' :: rest)))) := by
            simp [serFieldsChars]
          rw [hser]
          have hv : parseJ fuel (serJ v ++ ('}' :: rest))
              = some (v, '}' :: rest) := by
            refine ih1 v _ ?_ (by simp [startsWithDigit])
            simp only [fuelF] at hb
            have := fuelF_pos JFields.fnil
            omega
          simp [parseFields,
            parseStrChars_escChars k.data (':' :: (serJ v ++ ('}' :: rest))),
            parseStrCharsAux_escChars k.data (':' :: (serJ v ++ ('}' :: rest))), hv]
        | fcons k2 v2 tl2 =>
          have hser : serFieldsChars (JFields.fcons k v (JFields.fcons k2 v2 tl2)) ++ rest
              = '"' :: (escChars k.data ++ '"' :: (':' :: (serJ v
                  ++ (',' :: (serFieldsChars (JFields.fcons k2 v2 tl2) ++ rest))))) := by
            simp [serFieldsChars]
          rw [hser]
          have hv : parseJ fuel
              (serJ v ++ (',' :: (serFieldsChars (JFields.fcons k2 v2 tl2) ++ rest)))
              = some (v, ',' :: (serFieldsChars (JFields.fcons k2 v2 tl2) ++ rest)) := by
            refine ih1 v _ ?_ (by simp [startsWithDigit])
            simp only [fuelF] at hb
            omega
          have hw : parseFields fuel (serFieldsChars (JFields.fcons k2 v2 tl2) ++ rest)
              = some (JFields.fcons k2 v2 tl2, rest) := by
            refine ih3 _ rest ?_
            simp only [fuelF] at hb ⊢
            omega
          simp [parseFields,
            parseStrChars_escChars k.data
              (':' :: (serJ v ++ (',' :: (serFieldsChars (JFields.fcons k2 v2 tl2) ++ rest)))),
            parseStrCharsAux_escChars k.data
              (':' :: (serJ v ++ (',' :: (serFieldsChars (JFields.fcons k2 v2 tl2) ++ rest)))),
            hv, hw]

/-- The fuel a value needs is at most twice its serialized length. -/
theorem fuelLe : ∀ n : Nat, FuelLe n := by
  intro n
  induction n with
  | zero =>
    refine ⟨?_, ?_, ?_⟩
    · intro v hb
      have := fuelJ_pos v
      omega
    · intro l hb
      have := fuelA_pos l
      omega
    · intro fs hb
      have := fuelF_pos fs
      omega
  | succ n ih =>
    obtain ⟨ih1, ih2, ih3⟩ := ih
    refine ⟨?_, ?_, ?_⟩
    · intro v hb
      cases v with
      | jbool b => cases b <;> simp [fuelJ, serJ]
      | jnum i =>
        obtain ⟨c, cs, hc, _⟩ := serInt_head i
        simp [fuelJ, serJ, hc]
        omega
      | jstr s =>
        simp [fuelJ, serJ]
        omega
      | jarr l =>
        have h1 : fuelA l ≤ 2 * (serElemsChars l).length := by
          refine ih2 l ?_
          simp only [fuelJ] at hb
          omega
        simp only [fuelJ, serJ, List.length_cons]
        omega
      | jobj fs =>
        have h1 : fuelF fs ≤ 2 * (serFieldsChars fs).length := by
          refine ih3 fs ?_
          simp only [fuelJ] at hb
          omega
        simp only [fuelJ, serJ, List.length_cons]
        omega
    · intro l hb
      cases l with
      | anil => simp [fuelA, serElemsChars]
      | acons v vs =>
        have h1 : fuelJ v ≤ 2 * (serJ v).length := by
          refine ih1 v ?_
          simp only [fuelA] at hb
          have := fuelA_pos vs
          omega
        cases vs with
        | anil =>
          simp only [fuelA, serElemsChars, List.length_append,
            List.length_cons, List.length_nil]
          omega
        | acons w ws =>
          have h2 : fuelA (JArr.acons w ws) ≤ 2 * (serElemsChars (JArr.acons w ws)).length := by
            refine ih2 _ ?_
            simp only [fuelA] at hb ⊢
            omega
          simp only [fuelA, serElemsChars, List.length_append,
            List.length_cons] at h2 ⊢
          omega
    · intro fs hb
      cases fs with
      | fnil => simp [fuelF, serFieldsChars]
      | fcons k v tl =>
        have h1 : fuelJ v ≤ 2 * (serJ v).length := by
          refine ih1 v ?_
          simp only [fuelF] at hb
          have := fuelF_pos tl
          omega
        cases tl with
        | fnil =>
          simp only [fuelF, serFieldsChars, List.length_append,
            List.length_cons, List.length_nil]
          omega
        | fcons k2 v2 tl2 =>
          have h2 : fuelF (JFields.fcons k2 v2 tl2)
              ≤ 2 * (serFieldsChars (JFields.fcons k2 v2 tl2)).length := by
            refine ih3 _ ?_
            simp only [fuelF] at hb ⊢
            omega
          simp only [fuelF, serFieldsChars, List.length_append,
            List.length_cons] at h2 ⊢
          omega

/-- The default codec model round-trips every value of the fragment. -/
theorem deserializeJ_serializeJ :
    ∀ v : JVal, deserializeJ (some (serializeJ v)) = some v := by
  intro v
  have hb : fuelJ v ≤ 2 * (serJ v).length + 2 := by
    have h1 := (fuelLe (fuelJ v)).1 v (le_refl _)
    omega
  have hp := (rtParse (2 * (serJ v).length + 2)).1 v [] hb rfl
  rw [List.append_nil] at hp
  show (match parseJ (2 * (serJ v).length + 2) (serJ v) with
    | some (v, []) => some v
    | _ => none) = some v
  rw [hp]

/-- Looking up a key in a single-entry extension. -/
theorem getItem_cons (e : String × String) (m : StoreMap) (k : String) :
    getItem (e :: m) k = if (e.1 == k) = true then some e.2 else getItem m k := by
  simp only [getItem, List.find?_cons]
  cases hpe : (e.1 == k) <;> simp [hpe]

/-- Reading back the key just written returns the written string. -/
theorem getItem_setItem :
    ∀ (m : StoreMap) (k s : String), getItem (setItem m k s) k = some s := by
  intro m k s
  induction m with
  | nil => simp [setItem, getItem]
  | cons e es ih =>
    by_cases he : e.1 = k
    · have h1 : setItem (e :: es) k s
          = (k, s) :: es.map (fun e2 => if e2.1 == k then (k, s) else e2) := by
        simp [setItem, List.any_cons, he]
      rw [h1, getItem_cons]
      simp
    · have h1 : setItem (e :: es) k s = e :: setItem es k s := by
        cases hany : (es.any (fun e2 => e2.1 == k)) <;>
          simp [setItem, List.any_cons, he, hany, beq_iff_eq]
      rw [h1, getItem_cons, if_neg (by simp [he])]
      exact ih

/-- Claim C9: round-trip law — the default codec model decodes every
encoded fragment value back to itself; and for any codec satisfying the
round-trip law at a value, an update followed by an external notification
carrying the persisted raw string is observed unchanged by a sibling
instance. -/
theorem claim_C9 :
    (∀ v : JVal, deserializeJ (some (serializeJ v)) = some v)
    ∧ (∀ (α : Type) (cfg : Config α) (sid : Nat) (k : String) (v : α)
        (w wSib : World α),
      cfg.storage = .store sid → cfg.key = some k → k.isEmpty = false →
      cfg.deserialize (some (cfg.serialize v)) = some v →
      getItem (setSyncValue cfg (.lit v) w).1.contents k = some (cfg.serialize v)
      ∧ (storageEventListener cfg ⟨some sid, some k, some (cfg.serialize v)⟩ wSib).1.value
          = v) := by
  refine ⟨deserializeJ_serializeJ, ?_⟩
  intro α cfg sid k v w wSib hs hk hke hrt
  constructor
  · show getItem (persistToStorage cfg w.contents v) k = some (cfg.serialize v)
    unfold persistToStorage
    rw [hs, hk]
    simp only [hke, Bool.false_eq_true, if_false]
    exact getItem_setItem w.contents k (cfg.serialize v)
  · have hcond : (areaMatches (some sid) cfg.storage
        && keyMatches (some k) cfg.key) = true := by
      rw [hs, hk]
      simp [areaMatches, keyMatches]
    simp only [storageEventListener, hcond, if_true, hrt]

/-- Witness for claim C9 at a concrete object value through the full cycle
with the default codec model. -/
theorem claim_C9_witness :
    cfgJson.deserialize (some (cfgJson.serialize
        (.jobj (.fcons "a" (.jnum (-12)) (.fcons "b" (.jstr "x") .fnil))))) =
      some (.jobj (.fcons "a" (.jnum (-12)) (.fcons "b" (.jstr "x") .fnil)))
    ∧ getItem (setSyncValue cfgJson
        (.lit (.jobj (.fcons "a" (.jnum (-12)) (.fcons "b" (.jstr "x") .fnil))))
        { value := .jnum 0, updaters := [], listening := true, contents := [] }).1.contents "k"
      = some (cfgJson.serialize
          (.jobj (.fcons "a" (.jnum (-12)) (.fcons "b" (.jstr "x") .fnil))))
    ∧ (storageEventListener cfgJson
        ⟨some 0, some "k", some (cfgJson.serialize
          (.jobj (.fcons "a" (.jnum (-12)) (.fcons "b" (.jstr "x") .fnil))))⟩
        { value := .jnum 0, updaters := [7], listening := true,
          contents := [("k", "0")] }).1.value
      = .jobj (.fcons "a" (.jnum (-12)) (.fcons "b" (.jstr "x") .fnil)) := by
  refine ⟨rfl, ?_, ?_⟩
  · exact (claim_C9.2 JVal cfgJson 0 "k"
      (.jobj (.fcons "a" (.jnum (-12)) (.fcons "b" (.jstr "x") .fnil)))
      { value := .jnum 0, updaters := [], listening := true, contents := [] }
      { value := .jnum 0, updaters := [7], listening := true, contents := [("k", "0")] }
      rfl rfl rfl (by rfl)).1
  · exact (claim_C9.2 JVal cfgJson 0 "k"
      (.jobj (.fcons "a" (.jnum (-12)) (.fcons "b" (.jstr "x") .fnil)))
      { value := .jnum 0, updaters := [], listening := true, contents := [] }
      { value := .jnum 0, updaters := [7], listening := true, contents := [("k", "0")] }
      rfl rfl rfl (by rfl)).2

/-- Claim C2: at construction, a decodable non-null store entry becomes the
initial value with no store write; otherwise the initial value is the
default and, when a store and key are configured, the encoded default is
written; with store, key k and default 0 against an empty store exactly the
string 0 is left under k. -/
theorem claim_C2 :
    (∀ (α : Type) (cfg : Config α) (contents : StoreMap) (sid : Nat)
        (k : String) (v : α),
      cfg.storage = .store sid → cfg.key = some k → k.isEmpty = false →
      cfg.deserialize (getItem contents k) = some v →
      createSyncState cfg contents = .ok
        ({ value := v, updaters := [], listening := false, contents := contents },
          if cfg.hasOnInit then [Event.onInitCall v] else []))
    ∧ (∀ (α : Type) (cfg : Config α) (contents : StoreMap) (sid : Nat)
        (k : String),
      cfg.storage = .store sid → cfg.key = some k → k.isEmpty = false →
      cfg.deserialize (getItem contents k) = none →
      createSyncState cfg contents = .ok
        ({ value := cfg.defaultValue, updaters := [], listening := false,
            contents := setItem contents k (cfg.serialize cfg.defaultValue) },
          if cfg.hasOnInit then [Event.onInitCall cfg.defaultValue] else []))
    ∧ (∀ (α : Type) (cfg : Config α) (contents : StoreMap),
      cfg.storage.truthy = false →
      createSyncState cfg contents = .ok
        ({ value := cfg.defaultValue, updaters := [], listening := false,
            contents := contents },
          if cfg.hasOnInit then [Event.onInitCall cfg.defaultValue] else []))
    ∧ createSyncState cfgJson [] = .ok
        ({ value := .jnum 0, updaters := [], listening := false,
            contents := [("k", "0")] }, []) := by
  refine ⟨?_, ?_, ?_, ?_⟩
  · intro α cfg contents sid k v hs hk hke hd
    have hguard : (cfg.storage.truthy && !(keyTruthy cfg.key)) = false := by
      rw [hk]
      simp [keyTruthy, hke]
    have hinit : getInitialValue cfg contents = (v, contents) := by
      unfold getInitialValue
      rw [hs, hk]
      simp only [hke, Bool.false_eq_true, if_false, hd]
    simp only [createSyncState, hguard, Bool.false_eq_true, if_false, hinit]
  · intro α cfg contents sid k hs hk hke hd
    have hguard : (cfg.storage.truthy && !(keyTruthy cfg.key)) = false := by
      rw [hk]
      simp [keyTruthy, hke]
    have hinit : getInitialValue cfg contents
        = (cfg.defaultValue, setItem contents k (cfg.serialize cfg.defaultValue)) := by
      unfold getInitialValue persistToStorage
      rw [hs, hk]
      simp only [hke, Bool.false_eq_true, if_false, hd]
    simp only [createSyncState, hguard, Bool.false_eq_true, if_false, hinit]
  · intro α cfg contents hst
    have hguard : (cfg.storage.truthy && !(keyTruthy cfg.key)) = false := by
      simp [hst]
    have hinit : getInitialValue cfg contents = (cfg.defaultValue, contents) := by
      unfold getInitialValue persistToStorage
      cases hs : cfg.storage with
      | store sid =>
        rw [hs] at hst
        exact absurd hst (by simp [StorageOpt.truthy])
      | noStorage => rfl
      | falseStorage => rfl
    simp only [createSyncState, hguard, Bool.false_eq_true, if_false, hinit]
  · rfl

/-- Witness for claim C2 at a store already holding a decodable entry. -/
theorem claim_C2_witness :
    deserializeJ (getItem [("k", "true")] "k") = some (.jbool true)
    ∧ createSyncState cfgJson [("k", "true")] = .ok
        ({ value := .jbool true, updaters := [], listening := false,
            contents := [("k", "true")] }, []) :=
  ⟨rfl, claim_C2.1 JVal cfgJson [("k", "true")] 0 "k" (.jbool true)
    rfl rfl rfl rfl⟩
